import Mathlib

/-!
Verification of the LilypadLibs concurrency-and-resilience core (TTL cache,
flow controller, serializer key mapping) against its natural-language
specification.  The definitions below are shallow embeddings of the
TypeScript sources: JavaScript Map objects become association lists,
Date.now() becomes an explicit integer parameter, promises become settled
outcomes of type Except, and the event-loop interleaving of getOrSet is a
small-step machine over traces of arrival and settlement events.
-/

set_option autoImplicit false

namespace LilypadLibs

/-- Association-list lookup, mirroring JavaScript Map.prototype.get. -/
def mapGet {K A : Type} [DecidableEq K] : List (K × A) → K → Option A
  | [], _ => none
  | (k, a) :: rest, key => if k = key then some a else mapGet rest key

/-- Association-list update, mirroring JavaScript Map.prototype.set:
an existing key is updated in place, a new key is appended. -/
def mapSet {K A : Type} [DecidableEq K] : List (K × A) → K → A → List (K × A)
  | [], key, a => [(key, a)]
  | (k, b) :: rest, key, a =>
    if k = key then (key, a) :: rest else (k, b) :: mapSet rest key a

/-- Association-list removal, mirroring JavaScript Map.prototype.delete. -/
def mapDelete {K A : Type} [DecidableEq K] (m : List (K × A)) (key : K) : List (K × A) :=
  m.filter (fun p => decide (p.1 ≠ key))

/-- Abstraction of a JavaScript number as far as the configuration checks
use one: the checks only test truthiness, Number.isFinite and comparison
with zero, so the finite payload is an integer.  -/
inductive JSNum where
  | nan
  | posInf
  | negInf
  | num (x : Int)
deriving DecidableEq, Repr

/-- JavaScript truthiness of a number: NaN and 0 are falsy. -/
def JSNum.truthy : JSNum → Bool
  | .nan => false
  | .posInf => true
  | .negInf => true
  | .num x => x != 0

/-- Number.isFinite. -/
def JSNum.isFinite : JSNum → Bool
  | .num _ => true
  | _ => false

/-- The comparison v less-or-equal zero as JavaScript evaluates it
(false on NaN). -/
def JSNum.le0 : JSNum → Bool
  | .nan => false
  | .posInf => false
  | .negInf => true
  | .num x => x ≤ 0

/-- The property the specification asks of autoCleanupInterval:
a positive finite number. -/
def JSNum.positiveFinite : JSNum → Bool
  | .num x => 0 < x
  | _ => false

namespace Cache

/-- A cached value with its absolute expiration timestamp
(source: type LilypadCacheValue). -/
structure LilypadCacheValue (V : Type) where
  value : V
  expirationTime : Int
deriving DecidableEq, Repr

/-- isStale from the source: Date.now() at the call is at or past the
expiration time.  The current time is an explicit parameter. -/
def isStale {V : Type} (now : Int) (cv : LilypadCacheValue V) : Bool :=
  cv.expirationTime ≤ now

/-- The state a LilypadCache instance owns: the entry store, the protected
key set and the two TTL defaults fixed at construction. -/
structure CacheState (K V : Type) where
  store : List (K × LilypadCacheValue V)
  protectedKeys : List K
  defaultTtl : Int
  defaultErrorTtl : Int
deriving DecidableEq, Repr

/-- The tri-state classification returned by getComprehensive
(source: type LilypadCacheValueRetrieval). -/
inductive Retrieval (V : Type) where
  | hit (value : V) (expirationTime : Int)
  | expired (value : V) (expirationTime : Int)
  | miss
deriving DecidableEq, Repr

/-- The stored value carried by a non-miss classification. -/
def Retrieval.valueOf {V : Type} : Retrieval V → Option V
  | .hit v _ => some v
  | .expired v _ => some v
  | .miss => none

/-- Whether the classification is a hit. -/
def Retrieval.isHit {V : Type} : Retrieval V → Bool
  | .hit _ _ => true
  | _ => false

variable {K V : Type} [DecidableEq K]

/-- createExpirationTime: now plus the requested TTL, defaulting to the
instance TTL. -/
def createExpirationTime (now : Int) (st : CacheState K V) (ttl : Option Int) : Int :=
  now + ttl.getD st.defaultTtl

/-- set: unconditional overwrite of the entry for the key. -/
def set (now : Int) (st : CacheState K V) (key : K) (value : V) (ttl : Option Int) :
    CacheState K V :=
  { st with store := mapSet st.store key ⟨value, createExpirationTime now st ttl⟩ }

/-- getComprehensive: pure hit / expired / miss classification. -/
def getComprehensive (now : Int) (st : CacheState K V) (key : K) : Retrieval V :=
  match mapGet st.store key with
  | some cv =>
    if isStale now cv then .expired cv.value cv.expirationTime
    else .hit cv.value cv.expirationTime
  | none => .miss

/-- delete: removes the entry unless the key is protected and force is not
given. -/
def delete (st : CacheState K V) (key : K) (force : Bool) : CacheState K V :=
  if key ∈ st.protectedKeys ∧ force = false then st
  else { st with store := mapDelete st.store key }

/-- get with the removeOld flag (default true in the source): returns the
value on a fresh entry; otherwise optionally evicts through delete and
returns nothing.  The result pairs the returned value with the
post-call state. -/
def get (now : Int) (st : CacheState K V) (key : K) (removeOld : Bool) :
    Option V × CacheState K V :=
  match mapGet st.store key with
  | some cv =>
    if isStale now cv = false then (some cv.value, st)
    else (none, if removeOld then delete st key false else st)
  | none => (none, if removeOld then delete st key false else st)

/-- clear: iterates over the keys of the store, calling delete on each with
the given force option. -/
def clear (st : CacheState K V) (force : Bool) : CacheState K V :=
  (st.store.map Prod.fst).foldl (fun s k => delete s k force) st

/-- purgeExpired: deletes every entry whose expiration time has passed,
through delete with the given force option. -/
def purgeExpired (now : Int) (st : CacheState K V) (force : Bool) : CacheState K V :=
  st.store.foldl (fun s kv => if isStale now kv.2 then delete s kv.1 force else s) st

/-- The cleanup part of the cache constructor.  The source guards the
validation with the truthiness of options.autoCleanupInterval; a truthy
value that is not finite or not positive throws, a truthy valid value
schedules periodic purging, and a falsy or absent value schedules
nothing.  The result carries the scheduled interval when one is set. -/
def constructorCleanup (aci : Option JSNum) : Except String (Option JSNum) :=
  match aci with
  | none => .ok none
  | some v =>
    if v.truthy then
      if !v.isFinite || v.le0 then
        .error "autoCleanupInterval must be a positive finite number"
      else .ok (some v)
    else .ok none

end Cache

namespace FlowControl

variable {V E : Type}

/-- The terminal error handling shared by executeWithRetries and the
executeFn pipeline: when an error function is supplied and returns a
defined value that value is the result, otherwise the error is rethrown. -/
def applyErrorFn (errorFn : Option (E → Option V)) (e : E) : Except E V :=
  match errorFn with
  | some f =>
    match f e with
    | some v => .ok v
    | none => .error e
  | none => .error e

/-- The retry loop of executeWithRetries.  The operation is modelled as a
function from the invocation index to that invocation's settled outcome.
The attempts counter of the source is represented through the number of
retries still allowed (retries minus attempts); the attempts-at-least-
retries test of the source is the zero case here.  The backoff delay
only spends time and is not represented.  The result pairs the settled
outcome with the number of invocations performed. -/
def retryLoop (op : Nat → Except E V) (errorFn : Option (E → Option V)) :
    Nat → Nat → Except E V × Nat
  | remaining, calls =>
    match op calls with
    | .ok v => (.ok v, calls + 1)
    | .error e =>
      match remaining with
      | 0 => (applyErrorFn errorFn e, calls + 1)
      | r + 1 => retryLoop op errorFn r (calls + 1)

/-- executeWithRetries with the resolved retries count (the source resolves
options.retries, then the instance retries, then 0 before comparing). -/
def executeWithRetries (op : Nat → Except E V) (retries : Nat)
    (errorFn : Option (E → Option V)) : Except E V × Nat :=
  retryLoop op errorFn retries 0

/-- rateLimit over the rate map.  The configured rate window and the
current time are explicit; the result is the thrown error message or the
updated rate map. -/
def rateLimit (rate : Option Int) (rateMap : List (String × Int)) (now : Int)
    (consumerIdentifier functionIdentifier : String) :
    Except String (List (String × Int)) :=
  match rate with
  | none => .ok rateMap
  | some r =>
    let rateKey := consumerIdentifier ++ "#" ++ functionIdentifier
    let lastExecution := (mapGet rateMap rateKey).getD 0
    if now - lastExecution < r then
      .error ("Rate limit exceeded for " ++ rateKey)
    else .ok (mapSet rateMap rateKey now)

/-- executeWithTimeout as seen at settlement time: the operation is a
settled outcome together with the wall-clock duration it took, and the
race is won by the timer exactly when the configured timeout elapses
strictly before that duration. -/
def executeWithTimeout (timeout : Option Int) (duration : Int)
    (outcome : Except String V) : Except String V :=
  match timeout with
  | none => outcome
  | some t => if t < duration then .error "Operation timed out" else outcome

end FlowControl

/-- The options record of getOrSet.  The user error function is modelled as
a pure function of the error (the source also hands it the key, the
options record and the cache instance); skipCache defaults to false,
returnOldOnError to false and the TTLs to absent, as in the source. -/
structure GetOptions (V E : Type) where
  ttl : Option Int := none
  skipCache : Bool := false
  returnOldOnError : Bool := false
  errorFn : Option (E → Option V) := none
  errorTtl : Option Int := none

/-- The error function result, written as in the source where the optional
call options.errorFn?.(...) collapses an absent function and an
undefined return into undefined. -/
def GetOptions.errorFnRes {V E : Type} (opts : GetOptions V E) (e : E) : Option V :=
  opts.errorFn.bind (fun f => f e)

namespace CacheFC

open Cache

variable {K V E : Type} [DecidableEq K]

/-- errorReturn of the flow-composed cache revision: the error function is
consulted first; if it yields nothing and returnOldOnError is set with a
non-miss pre-call classification the old value is used; an undetermined
value rethrows the error; a determined value is re-cached with the error
TTL (options.errorTtl, defaulting to the instance default) before being
returned. -/
def errorReturn (now : Int) (st : CacheState K V) (e : E) (opts : GetOptions V E)
    (key : K) (fetched : Retrieval V) : Except E (V × CacheState K V) :=
  let valueToReturn : Option V :=
    match opts.errorFnRes e with
    | some v => some v
    | none =>
      match fetched.valueOf, opts.returnOldOnError with
      | some oldv, true => some oldv
      | _, _ => none
  match valueToReturn with
  | none => .error e
  | some v => .ok (v, Cache.set now st key v (some (opts.errorTtl.getD st.defaultErrorTtl)))

/-- getOrSet of the flow-composed revision for the caller that starts the
load, given the loader's settled outcome.  A fresh hit is served from the
store (unless skipCache); otherwise the executeFn pipeline runs the
loader (the cache constructs its flow controller without retries, so the
pipeline is a plain try/catch): success stores the value with the
requested TTL, failure is handed to errorReturn with the pre-call
classification.  The classification happens at the call time and the
settlement at a possibly later time, hence the two time parameters. -/
def getOrSet (now₀ now₁ : Int) (st : CacheState K V) (key : K)
    (loaderOutcome : Except E V) (opts : GetOptions V E) :
    Except E (V × CacheState K V) :=
  let fetched := getComprehensive now₀ st key
  match fetched, opts.skipCache with
  | .hit v _, false => .ok (v, st)
  | _, _ =>
    match loaderOutcome with
    | .ok v => .ok (v, Cache.set now₁ st key v opts.ttl)
    | .error e => errorReturn now₁ st e opts key fetched

/-- getOrSet of the flow-composed revision for a caller arriving while an
operation for the key is in flight: executeFn finds the function
identifier in the single-flight map and returns the stored promise, so
the result is the first caller's pipeline outcome and the attaching
caller's own options are never consulted. -/
def getOrSetAttached (pipelineResult : Except E (V × CacheState K V))
    (_opts : GetOptions V E) : Except E (V × CacheState K V) :=
  pipelineResult

/-- The timeout the flow-composed cache constructor hands its internal flow
controller: options.flowControlTimeout or-else 5000, where the
JavaScript or-else falls through on any falsy value. -/
def flowControlTimeout (fcT : Option JSNum) : JSNum :=
  match fcT with
  | some v => if v.truthy then v else JSNum.num 5000
  | none => JSNum.num 5000

/-- getOrSet of the flow-composed revision with the loader raced against
the configured timeout: the loader is a settled outcome with a duration,
and executeWithTimeout decides what the pipeline observes. -/
def getOrSetTimed (now₀ now₁ : Int) (st : CacheState K V) (key : K)
    (timeout : Int) (duration : Int) (loaderOutcome : Except String V)
    (opts : GetOptions V String) : Except String (V × CacheState K V) :=
  getOrSet now₀ now₁ st key
    (FlowControl.executeWithTimeout (some timeout) duration loaderOutcome) opts

end CacheFC

namespace SingleFlight

open Cache

/-- A caller waiting on an in-flight load: its identifier, the options it
passed and the classification it computed on arrival (the source closes
over fetched and options in both the starter's catch and the attached
wrapper). -/
structure Waiter (V E : Type) where
  caller : Nat
  opts : GetOptions V E
  fetched : Retrieval V

/-- The in-flight operation for a key: the caller whose arrival invoked the
loader, and the callers that attached to the pending promise. -/
structure OpRecord (V E : Type) where
  starter : Waiter V E
  attached : List (Waiter V E)

/-- The state of the standalone cache revision during concurrent getOrSet
activity: the cache proper, the pendingPromises map (each entry enriched
with the waiting callers), the number of loader invocations per key and
each settled caller's result. -/
structure SFState (K V E : Type) where
  cache : CacheState K V
  pendingOps : List (K × OpRecord V E)
  loaderCalls : List (K × Nat)
  results : List (Nat × Except E V)

/-- An event of the cooperative schedule: a caller entering getOrSet (the
synchronous prefix up to the first suspension point runs atomically), or
the in-flight promise for a key settling. -/
inductive Event (K V E : Type) where
  | arrive (now : Int) (caller : Nat) (key : K) (opts : GetOptions V E)
  | settle (now : Int) (key : K) (outcome : Except E V)

variable {K V E : Type} [DecidableEq K]

/-- The wrapper an attached caller receives in the standalone revision:
when that caller asked for returnOldOnError and had a prior value, a
rejection is mapped through its own error function and then to its prior
value; otherwise the pending promise is returned as is. -/
def attachedOutcome (opts : GetOptions V E) (fetched : Retrieval V)
    (outcome : Except E V) : Except E V :=
  match fetched.valueOf, opts.returnOldOnError with
  | some oldv, true =>
    match outcome with
    | .ok v => .ok v
    | .error e =>
      match opts.errorFnRes e with
      | some v => .ok v
      | none => .ok oldv
  | _, _ => outcome

/-- The starter's continuation in the standalone revision: success stores
the value under the requested TTL and returns it; failure with
returnOldOnError and a prior value consults the error function (whose
defined result is returned without re-caching) and otherwise re-caches
and returns the old value under the error TTL; any other failure
rethrows. -/
def starterOutcome (now : Int) (cache : CacheState K V) (key : K)
    (opts : GetOptions V E) (fetched : Retrieval V) (outcome : Except E V) :
    Except E V × CacheState K V :=
  match outcome with
  | .ok v => (.ok v, Cache.set now cache key v opts.ttl)
  | .error e =>
    match fetched.valueOf, opts.returnOldOnError with
    | some oldv, true =>
      match opts.errorFnRes e with
      | some v => (.ok v, cache)
      | none =>
        (.ok oldv, Cache.set now cache key oldv (some (opts.errorTtl.getD cache.defaultErrorTtl)))
    | _, _ => (.error e, cache)

/-- One step of the machine.  An arrival runs the synchronous prefix of
getOrSet: classify, serve a fresh hit, attach to a pending operation, or
invoke the loader and register the pending operation.  A settlement runs
every waiter's continuation and removes the pending entry (the finally
clause of the source). -/
def step (st : SFState K V E) : Event K V E → SFState K V E
  | .arrive now c key opts =>
    let fetched := getComprehensive now st.cache key
    match fetched, opts.skipCache with
    | .hit v _, false => { st with results := mapSet st.results c (.ok v) }
    | _, _ =>
      match mapGet st.pendingOps key with
      | some op =>
        { st with
          pendingOps :=
            mapSet st.pendingOps key { op with attached := op.attached ++ [⟨c, opts, fetched⟩] } }
      | none =>
        { st with
          pendingOps := mapSet st.pendingOps key ⟨⟨c, opts, fetched⟩, []⟩,
          loaderCalls := mapSet st.loaderCalls key ((mapGet st.loaderCalls key).getD 0 + 1) }
  | .settle now key outcome =>
    match mapGet st.pendingOps key with
    | none => st
    | some op =>
      let sr := starterOutcome now st.cache key op.starter.opts op.starter.fetched outcome
      let results₁ := mapSet st.results op.starter.caller sr.1
      let results₂ := op.attached.foldl
        (fun r w => mapSet r w.caller (attachedOutcome w.opts w.fetched outcome)) results₁
      { cache := sr.2, pendingOps := mapDelete st.pendingOps key,
        loaderCalls := st.loaderCalls, results := results₂ }

/-- Running a trace of events. -/
def run (st : SFState K V E) (events : List (Event K V E)) : SFState K V E :=
  events.foldl step st

end SingleFlight

namespace Serializer

/-- The type-level IsBijective conditional of the serializer, embedded over
finite field sets: field sets are lists of field names and the key
mapping is an association list.  The three nested conditions translate
as: every source field is a key of the mapping; every target field is
among the mapping's values at source fields; and the inverted mapping is
a record over the target fields whose entries name source fields (its
keys are the mapping's values, and its entry at a value collects the
keys sent there). -/
def IsBijective (A B : List String) (M : List (String × String)) : Bool :=
  A.all (fun a => M.any (fun p => p.1 == a)) &&
  B.all (fun b => M.any (fun p => decide (p.1 ∈ A) && p.2 == b)) &&
  (B.all (fun b => M.any (fun p => p.2 == b)) &&
   M.all (fun p => !(decide (p.2 ∈ B)) || decide (p.1 ∈ A)))

/-- The runtime serializer instance: the constructor of the source stores
its options without any validation, so the instance is the key mapping
it was given (the per-field function tables play no role in the
bijectivity claim and are omitted). -/
structure LilypadSerializer where
  keyMapping : List (String × String)
deriving DecidableEq, Repr

/-- The constructor: assignment of the options, nothing else. -/
def mkSerializer (keyMapping : List (String × String)) : LilypadSerializer :=
  ⟨keyMapping⟩

end Serializer

/-- Whether a settled computation rejected. -/
def throws {ε α : Type} : Except ε α → Bool
  | .error _ => true
  | .ok _ => false

/-- A freshly constructed cache state: empty store, no protected keys, the
default TTL of 60000 and the default error TTL of five minutes. -/
def sampleEmptyState : Cache.CacheState Nat Nat :=
  ⟨[], [], 60000, 300000⟩

/-- A cache state holding one already-expired entry at key 1. -/
def sampleEntryState : Cache.CacheState Nat Nat :=
  ⟨[(1, ⟨10, 0⟩)], [], 60000, 300000⟩

/-- A cache state holding one expired entry at key 1, with key 1 protected. -/
def sampleProtectedState : Cache.CacheState Nat Nat :=
  ⟨[(1, ⟨10, 0⟩)], [1], 60000, 300000⟩

/-- Options carrying an error function that always answers 42. -/
def sampleOptsErrorFn : GetOptions Nat String :=
  { errorFn := some (fun _ => some 42) }

/-- Options asking for the old value on error, with an error function that
always answers 42. -/
def sampleOptsReturnOld : GetOptions Nat String :=
  { returnOldOnError := true, errorFn := some (fun _ => some 42) }

/-- A single-flight machine state with one operation in flight for key 1:
caller 1 started it with default options, caller 2 attached with
sampleOptsReturnOld after classifying the entry as expired. -/
def sampleSFAttached : SingleFlight.SFState Nat Nat String :=
  ⟨sampleEntryState,
   [(1, ⟨⟨1, {}, Cache.Retrieval.miss⟩, [⟨2, sampleOptsReturnOld, Cache.Retrieval.expired 10 0⟩]⟩)],
   [(1, 1)], []⟩

/-- A quiescent single-flight machine state over an empty cache. -/
def sampleSFEmpty : SingleFlight.SFState Nat Nat String :=
  ⟨sampleEmptyState, [], [], []⟩

section MapLemmas

variable {K A : Type} [DecidableEq K]

theorem mapGet_mapSet_self (m : List (K × A)) (k : K) (a : A) :
    mapGet (mapSet m k a) k = some a := by
  induction m with
  | nil => simp [mapGet, mapSet]
  | cons p rest ih =>
    by_cases h : p.1 = k
    · simp [mapGet, mapSet, h]
    · simp [mapGet, mapSet, h, ih]

theorem mapGet_mapSet_ne (m : List (K × A)) (k k' : K) (a : A) (h : k ≠ k') :
    mapGet (mapSet m k a) k' = mapGet m k' := by
  induction m with
  | nil => simp [mapGet, mapSet, h]
  | cons p rest ih =>
    by_cases hp : p.1 = k
    · simp [mapGet, mapSet, hp, h]
    · simp only [mapSet, if_neg hp]
      by_cases hp' : p.1 = k'
      · simp [mapGet, hp']
      · simp [mapGet, hp', ih]

theorem mapGet_mapDelete_self (m : List (K × A)) (k : K) :
    mapGet (mapDelete m k) k = none := by
  induction m with
  | nil => simp [mapGet, mapDelete]
  | cons p rest ih =>
    by_cases h : p.1 = k
    · simpa [mapDelete, h] using ih
    · simpa [mapDelete, mapGet, h] using ih

theorem mapGet_mapDelete_ne (m : List (K × A)) (k k' : K) (h : k ≠ k') :
    mapGet (mapDelete m k) k' = mapGet m k' := by
  induction m with
  | nil => simp [mapGet, mapDelete]
  | cons p rest ih =>
    by_cases hp : p.1 = k
    · have hne : p.1 ≠ k' := by rw [hp]; exact h
      rw [show mapDelete (p :: rest) k = mapDelete rest k by simp [mapDelete, hp]]
      rw [ih]
      simp [mapGet, hne]
    · rw [show mapDelete (p :: rest) k = p :: mapDelete rest k by simp [mapDelete, hp]]
      by_cases hp' : p.1 = k'
      · simp [mapGet, hp']
      · simp [mapGet, hp', ih]

theorem mapGet_mapDelete_none (m : List (K × A)) (k k' : K)
    (h : mapGet m k' = none) : mapGet (mapDelete m k) k' = none := by
  by_cases hk : k = k'
  · rw [hk, mapGet_mapDelete_self]
  · rw [mapGet_mapDelete_ne m k k' hk, h]

theorem mapDelete_of_get_none (m : List (K × A)) (k : K)
    (h : mapGet m k = none) : mapDelete m k = m := by
  induction m with
  | nil => rfl
  | cons p rest ih =>
    by_cases hp : p.1 = k
    · simp [mapGet, hp] at h
    · simp only [mapGet, if_neg hp] at h
      simp [mapDelete, hp] at ih ⊢
      exact ih h

theorem mapGet_some_mem (m : List (K × A)) (k : K) (a : A)
    (h : mapGet m k = some a) : (k, a) ∈ m := by
  induction m with
  | nil => simp [mapGet] at h
  | cons p rest ih =>
    by_cases hp : p.1 = k
    · simp only [mapGet, if_pos hp] at h
      have hpa : p = (k, a) := by
        obtain ⟨p₁, p₂⟩ := p
        simp only at hp
        injection h with h₂
        simp only at h₂
        simp [hp, h₂]
      rw [hpa]
      exact List.mem_cons_self _ _
    · simp only [mapGet, if_neg hp] at h
      exact List.mem_cons_of_mem _ (ih h)

end MapLemmas

section RetryLemmas

variable {V E : Type}

theorem retryLoop_always_fail (err : Nat → E) (errorFn : Option (E → Option V)) :
    ∀ (remaining calls : Nat),
      FlowControl.retryLoop (fun n => .error (err n)) errorFn remaining calls =
        (FlowControl.applyErrorFn errorFn (err (calls + remaining)), calls + remaining + 1) := by
  intro remaining
  induction remaining with
  | zero => intro calls; simp [FlowControl.retryLoop]
  | succ r ih =>
    intro calls
    have harith : calls + 1 + r = calls + (r + 1) := by omega
    simp only [FlowControl.retryLoop, ih (calls + 1), harith]

end RetryLemmas

/-- Claim C3: executeWithRetries with retries N against an always-failing
operation invokes the operation exactly N plus 1 times; after the last
failure the error function, when supplied, is applied, its defined value
is returned, and otherwise the call rejects with the last error. -/
theorem C3_retry_exhaustion {V E : Type} (N : Nat) (err : Nat → E)
    (errorFn : Option (E → Option V)) :
    (FlowControl.executeWithRetries (fun n => .error (err n)) N errorFn).2 = N + 1 ∧
    (FlowControl.executeWithRetries (fun n => .error (err n)) N errorFn).1 =
      FlowControl.applyErrorFn errorFn (err N) ∧
    (∀ f v, errorFn = some f → f (err N) = some v →
      (FlowControl.executeWithRetries (fun n => .error (err n)) N errorFn).1 = .ok v) ∧
    (errorFn = none →
      (FlowControl.executeWithRetries (fun n => .error (err n)) N errorFn).1 = .error (err N)) := by
  have h := retryLoop_always_fail err errorFn N 0
  simp only [Nat.zero_add] at h
  unfold FlowControl.executeWithRetries
  rw [h]
  refine ⟨rfl, rfl, ?_, ?_⟩
  · intro f v hf hv
    simp [FlowControl.applyErrorFn, hf, hv]
  · intro hf
    simp [FlowControl.applyErrorFn, hf]

/-- Witness for C3 at N equal 2: an operation failing on every invocation
with the invocation index as error is invoked three times and, with no
error function, rejects with the last error. -/
theorem C3_witness :
    (FlowControl.executeWithRetries (V := Nat)
        (fun n => .error (toString n)) 2 none).2 = 3 ∧
    (FlowControl.executeWithRetries (V := Nat)
        (fun n => .error (toString n)) 2 none).1 = .error "2" := by
  have h := C3_retry_exhaustion (V := Nat) 2 (fun n => toString n) none
  exact ⟨h.1, h.2.2.2 rfl⟩

/-- Claim C5: with a configured rate window, rateLimit throws an error
naming both identifiers joined as consumer hash function exactly when
the elapsed time since the recorded invocation of the pair is below the
window; a passing check records the current time, a rejected check
leaves the map unchanged, and without a configured rate the call is a
no-op that never throws. -/
theorem C5_rate_limit (r : Int) (m : List (String × Int)) (now : Int)
    (c f : String) :
    (FlowControl.rateLimit none m now c f = .ok m) ∧
    (∀ last, mapGet m (c ++ "#" ++ f) = some last →
      (throws (FlowControl.rateLimit (some r) m now c f) = true ↔ now - last < r)) ∧
    (throws (FlowControl.rateLimit (some r) m now c f) = true →
      FlowControl.rateLimit (some r) m now c f =
        .error ("Rate limit exceeded for " ++ (c ++ "#" ++ f))) ∧
    (throws (FlowControl.rateLimit (some r) m now c f) = false →
      FlowControl.rateLimit (some r) m now c f =
        .ok (mapSet m (c ++ "#" ++ f) now)) := by
  refine ⟨rfl, ?_, ?_, ?_⟩
  · intro last hlast
    simp only [FlowControl.rateLimit, hlast, Option.getD_some]
    by_cases h : now - last < r
    · simp [h, throws]
    · simp [h, throws]
  · intro h
    simp only [FlowControl.rateLimit] at h ⊢
    by_cases hlt : now - (mapGet m (c ++ "#" ++ f)).getD 0 < r
    · simp [hlt]
    · simp [hlt, throws] at h
  · intro h
    simp only [FlowControl.rateLimit] at h ⊢
    by_cases hlt : now - (mapGet m (c ++ "#" ++ f)).getD 0 < r
    · simp [hlt, throws] at h
    · simp [hlt]

/-- Witness for C5: with a window of 10 and a recorded invocation of the
pair at time 5, a check at time 9 throws the naming error, and a check
at time 20 passes and records time 20. -/
theorem C5_witness :
    FlowControl.rateLimit (some 10) [("a#b", 5)] 9 "a" "b" =
      .error "Rate limit exceeded for a#b" ∧
    FlowControl.rateLimit (some 10) [("a#b", 5)] 20 "a" "b" =
      .ok [("a#b", 20)] := by
  constructor
  · have h := (C5_rate_limit 10 [("a#b", 5)] 9 "a" "b").2.2.1
    have hthrows : throws (FlowControl.rateLimit (some 10) [("a#b", 5)] 9 "a" "b") = true :=
      ((C5_rate_limit 10 [("a#b", 5)] 9 "a" "b").2.1 5 (by decide)).mpr (by decide)
    simpa using h hthrows
  · have h := (C5_rate_limit 10 [("a#b", 5)] 20 "a" "b").2.2.2
    have hok : throws (FlowControl.rateLimit (some 10) [("a#b", 5)] 20 "a" "b") = false := by
      have := ((C5_rate_limit 10 [("a#b", 5)] 20 "a" "b").2.1 5 (by decide))
      cases hb : throws (FlowControl.rateLimit (some 10) [("a#b", 5)] 20 "a" "b")
      · rfl
      · exact absurd (this.mp hb) (by decide)
    simpa using h hok

/-- Claim C6, counterexample: the constructor silently accepts an
autoCleanupInterval of 0, a value that is not a positive finite number,
and schedules nothing, where the claim demands a configuration error. -/
theorem C6_counterexample :
    Cache.constructorCleanup (some (JSNum.num 0)) = .ok none ∧
    (JSNum.num 0).positiveFinite = false ∧
    throws (Cache.constructorCleanup (some (JSNum.num 0))) = false := by
  exact ⟨rfl, rfl, rfl⟩

/-- Claim C6, amended: with autoCleanupInterval set, construction throws
exactly when the value is truthy yet not a positive finite number;
falsy values (0 and NaN) are silently ignored with nothing scheduled;
construction schedules the periodic purge at the given interval exactly
when the value is a positive finite number. -/
theorem C6_auto_cleanup (aci : JSNum) :
    (throws (Cache.constructorCleanup (some aci)) = true ↔
      (aci.truthy = true ∧ aci.positiveFinite = false)) ∧
    (Cache.constructorCleanup (some aci) = .ok (some aci) ↔ aci.positiveFinite = true) ∧
    (Cache.constructorCleanup (some aci) = .ok none ↔ aci.truthy = false) ∧
    Cache.constructorCleanup none = .ok none := by
  refine ⟨?_, ?_, ?_, rfl⟩ <;>
    cases aci <;>
      simp [Cache.constructorCleanup, JSNum.truthy, JSNum.isFinite, JSNum.le0,
        JSNum.positiveFinite, throws] <;>
      split_ifs <;> simp_all

/-- Witness for C6: a negative interval is rejected, a positive one is
scheduled. -/
theorem C6_witness :
    throws (Cache.constructorCleanup (some (JSNum.num (-1)))) = true ∧
    Cache.constructorCleanup (some (JSNum.num 100)) = .ok (some (JSNum.num 100)) := by
  exact ⟨(C6_auto_cleanup (JSNum.num (-1))).1.mpr (by decide),
    (C6_auto_cleanup (JSNum.num 100)).2.1.mpr (by decide)⟩

/-- Claim C1: when the loader of a getOrSet call rejects, the error
function is consulted first and its defined value wins; otherwise
returnOldOnError with a non-miss pre-call classification yields the
prior value; otherwise the call rejects with the original error; every
fallback value is re-cached under the error TTL (options.errorTtl, else
the instance default).  The hypothesis records that the loader actually
ran: the call was not served from a fresh hit. -/
theorem C1_error_fallback {K V E : Type} [DecidableEq K] (now₀ now₁ : Int)
    (st : Cache.CacheState K V) (key : K) (e : E) (opts : GetOptions V E)
    (hrun : opts.skipCache = true ∨ (Cache.getComprehensive now₀ st key).isHit = false) :
    (∀ v, opts.errorFnRes e = some v →
      CacheFC.getOrSet now₀ now₁ st key (.error e) opts =
        .ok (v, Cache.set now₁ st key v (some (opts.errorTtl.getD st.defaultErrorTtl)))) ∧
    (opts.errorFnRes e = none → opts.returnOldOnError = true →
      ∀ oldv, (Cache.getComprehensive now₀ st key).valueOf = some oldv →
      CacheFC.getOrSet now₀ now₁ st key (.error e) opts =
        .ok (oldv, Cache.set now₁ st key oldv (some (opts.errorTtl.getD st.defaultErrorTtl)))) ∧
    (opts.errorFnRes e = none →
      (opts.returnOldOnError = false ∨ Cache.getComprehensive now₀ st key = .miss) →
      CacheFC.getOrSet now₀ now₁ st key (.error e) opts = .error e) := by
  have hred : CacheFC.getOrSet now₀ now₁ st key (.error e) opts =
      CacheFC.errorReturn now₁ st e opts key (Cache.getComprehensive now₀ st key) := by
    cases hget : Cache.getComprehensive now₀ st key with
    | hit v t =>
      rcases hrun with hs | hh
      · simp [CacheFC.getOrSet, hget, hs]
      · rw [hget] at hh
        simp [Cache.Retrieval.isHit] at hh
    | expired v t => simp [CacheFC.getOrSet, hget]
    | miss => simp [CacheFC.getOrSet, hget]
  refine ⟨?_, ?_, ?_⟩
  · intro v hv
    rw [hred]
    simp [CacheFC.errorReturn, hv]
  · intro h₀ hro oldv holdv
    rw [hred]
    simp [CacheFC.errorReturn, h₀, holdv, hro]
  · intro h₀ hd
    rw [hred]
    rcases hd with hro | hmiss
    · cases hvo : (Cache.getComprehensive now₀ st key).valueOf <;>
        simp [CacheFC.errorReturn, h₀, hro, hvo]
    · simp [CacheFC.errorReturn, h₀, hmiss, Cache.Retrieval.valueOf]

/-- Witness for C1: on an empty cache a rejecting loader with an error
function answering 42 resolves to 42 re-cached under the default error
TTL. -/
theorem C1_witness :
    CacheFC.getOrSet 0 0 sampleEmptyState 1 (.error "boom") sampleOptsErrorFn =
      .ok (42, Cache.set 0 sampleEmptyState 1 42 (some 300000)) := by
  have h := C1_error_fallback 0 0 sampleEmptyState 1 "boom" sampleOptsErrorFn
    (Or.inr (by decide))
  exact h.1 42 rfl

section AttachFoldLemmas

variable {V E : Type}

theorem mapGet_attachFold_not_mem (g : SingleFlight.Waiter V E → Except E V) :
    ∀ (l : List (SingleFlight.Waiter V E)) (r : List (Nat × Except E V)) (c : Nat),
      c ∉ l.map SingleFlight.Waiter.caller →
      mapGet (l.foldl (fun r w => mapSet r w.caller (g w)) r) c = mapGet r c := by
  intro l
  induction l with
  | nil => intro r c _; rfl
  | cons w rest ih =>
    intro r c hc
    simp only [List.map_cons, List.mem_cons, not_or] at hc
    simp only [List.foldl_cons]
    rw [ih _ c hc.2, mapGet_mapSet_ne _ _ _ _ (fun h => hc.1 h.symm)]

theorem mapGet_attachFold_mem (g : SingleFlight.Waiter V E → Except E V) :
    ∀ (l : List (SingleFlight.Waiter V E)) (r : List (Nat × Except E V))
      (w : SingleFlight.Waiter V E), w ∈ l →
      (l.map SingleFlight.Waiter.caller).Nodup →
      mapGet (l.foldl (fun r w' => mapSet r w'.caller (g w')) r) w.caller = some (g w) := by
  intro l
  induction l with
  | nil => intro r w hw; simp at hw
  | cons w₀ rest ih =>
    intro r w hw hnodup
    simp only [List.map_cons, List.nodup_cons] at hnodup
    simp only [List.foldl_cons]
    rcases List.mem_cons.mp hw with hw₀ | hwrest
    · subst hw₀
      rw [mapGet_attachFold_not_mem g rest _ _ hnodup.1, mapGet_mapSet_self]
    · exact ih _ w hwrest hnodup.2

end AttachFoldLemmas

/-- Claim C4, counterexample: in the flow-composed revision a caller that
attaches to an in-flight load receives the first caller's pipeline
outcome unchanged.  Here the first caller used default options, so the
shared rejection propagates to the attached caller even though the
attached caller's own options (error function answering 42 and
returnOldOnError) would, under the claimed independent evaluation,
have produced 42. -/
theorem C4_counterexample :
    CacheFC.getOrSetAttached
        (CacheFC.getOrSet 5 5 sampleEntryState 1 (.error "boom") {}) sampleOptsReturnOld =
      .error "boom" ∧
    CacheFC.errorReturn 5 sampleEntryState "boom" sampleOptsReturnOld 1
        (Cache.getComprehensive 5 sampleEntryState 1) =
      .ok (42, Cache.set 5 sampleEntryState 1 42 (some 300000)) ∧
    (Except.error "boom" : Except String (Nat × Cache.CacheState Nat Nat)) ≠
      .ok (42, Cache.set 5 sampleEntryState 1 42 (some 300000)) := by
  refine ⟨rfl, rfl, fun h => Except.noConfusion h⟩

/-- Claim C4, amended: in the standalone (pendingPromises) revision each
attached caller's result on a shared rejection is computed from that
caller's own options and own pre-call classification: with
returnOldOnError and a prior value, its own error function is consulted
and then its prior value; otherwise the shared rejection propagates. -/
theorem C4_independent_eval {K V E : Type} [DecidableEq K]
    (st : SingleFlight.SFState K V E) (now : Int) (k : K) (e : E)
    (op : SingleFlight.OpRecord V E)
    (hop : mapGet st.pendingOps k = some op)
    (hnodup : (op.attached.map SingleFlight.Waiter.caller).Nodup)
    (w : SingleFlight.Waiter V E) (hw : w ∈ op.attached) :
    mapGet (SingleFlight.step st (.settle now k (.error e))).results w.caller =
      some (SingleFlight.attachedOutcome w.opts w.fetched (.error e)) ∧
    SingleFlight.attachedOutcome w.opts w.fetched (.error e) =
      (match w.fetched.valueOf, w.opts.returnOldOnError with
       | some oldv, true =>
         (match w.opts.errorFnRes e with
          | some v => .ok v
          | none => .ok oldv)
       | _, _ => .error e) := by
  constructor
  · simp only [SingleFlight.step, hop]
    exact mapGet_attachFold_mem _ op.attached _ w hw hnodup
  · cases hvo : w.fetched.valueOf <;> cases hro : w.opts.returnOldOnError <;>
      simp [SingleFlight.attachedOutcome, hvo, hro]

/-- Witness for C4: in the standalone revision, settling the in-flight
operation with a rejection gives the attached caller 2 (whose own error
function answers 42) the result 42, independent of the starter's
options. -/
theorem C4_witness :
    mapGet (SingleFlight.step sampleSFAttached
        (SingleFlight.Event.settle 5 1 (.error "boom"))).results 2 = some (.ok 42) := by
  have h := C4_independent_eval sampleSFAttached 5 1 "boom"
    ⟨⟨1, {}, Cache.Retrieval.miss⟩, [⟨2, sampleOptsReturnOld, Cache.Retrieval.expired 10 0⟩]⟩
    rfl (by simp) ⟨2, sampleOptsReturnOld, Cache.Retrieval.expired 10 0⟩ (by simp)
  rw [h.1]
  rfl

/-- Claim C8: get returns the stored value exactly on a hit and absent
otherwise; with removeOnExpire false the store is untouched; any store
change is the eviction of an existing stale entry under removeOnExpire. -/
theorem C8_get_frame {K V : Type} [DecidableEq K] (now : Int)
    (st : Cache.CacheState K V) (key : K) (removeOld : Bool) :
    ((Cache.get now st key removeOld).1 =
      match Cache.getComprehensive now st key with
      | .hit v _ => some v
      | _ => none) ∧
    (Cache.get now st key false).2 = st ∧
    ((Cache.get now st key removeOld).2 = st ∨
      (removeOld = true ∧
        ∃ cv, mapGet st.store key = some cv ∧ Cache.isStale now cv = true ∧
          (Cache.get now st key removeOld).2 = Cache.delete st key false)) := by
  have habsent : mapGet st.store key = none → Cache.delete st key false = st := by
    intro h
    unfold Cache.delete
    split_ifs with hc
    · rfl
    · obtain ⟨s, p, t₁, t₂⟩ := st
      simp only at h
      simp [mapDelete_of_get_none _ _ h]
  cases hget : mapGet st.store key with
  | none =>
    cases removeOld <;>
      simp [Cache.get, Cache.getComprehensive, hget, habsent hget]
  | some cv =>
    cases hstale : Cache.isStale now cv with
    | false =>
      cases removeOld <;> simp [Cache.get, Cache.getComprehensive, hget, hstale]
    | true =>
      cases removeOld with
      | false => simp [Cache.get, Cache.getComprehensive, hget, hstale]
      | true =>
        refine ⟨?_, ?_, Or.inr ⟨rfl, cv, rfl, hstale, ?_⟩⟩ <;>
          simp [Cache.get, Cache.getComprehensive, hget, hstale]

/-- Witness for C8: on the expired entry the call returns absent, and with
removeOnExpire false the store is untouched. -/
theorem C8_witness :
    (Cache.get 5 sampleEntryState 1 true).1 = none ∧
    (Cache.get 5 sampleEntryState 1 false).2 = sampleEntryState := by
  constructor
  · rw [(C8_get_frame 5 sampleEntryState 1 true).1]
    rfl
  · exact (C8_get_frame 5 sampleEntryState 1 false).2.1

/-- Claim C9, counterexample: the embedded type-level bijectivity check
accepts a key mapping that sends the two source fields a and b to the
single target field x, and the runtime constructor stores it untouched,
so a serializer instance with a non-injective mapping exists. -/
theorem C9_counterexample :
    Serializer.IsBijective ["a", "b"] ["x"] [("a", "x"), ("b", "x")] = true ∧
    (Serializer.mkSerializer [("a", "x"), ("b", "x")]).keyMapping =
      [("a", "x"), ("b", "x")] ∧
    mapGet (Serializer.mkSerializer [("a", "x"), ("b", "x")]).keyMapping "a" = some "x" ∧
    mapGet (Serializer.mkSerializer [("a", "x"), ("b", "x")]).keyMapping "b" = some "x" ∧
    ("a" : String) ≠ "b" := by
  refine ⟨by decide, rfl, by decide, by decide, by decide⟩

/-- Claim C9, amended: the type-level check is equivalent to the mapping
being total on the source fields, covering every target field from the
source fields, and sending no stray key into the target fields; it does
not demand injectivity, and the runtime constructor stores any mapping
without validation. -/
theorem C9_bijective_check (A B : List String) (M : List (String × String)) :
    (Serializer.IsBijective A B M = true ↔
      ((∀ a ∈ A, ∃ v, (a, v) ∈ M) ∧
       (∀ b ∈ B, ∃ a ∈ A, (a, b) ∈ M) ∧
       (∀ p ∈ M, p.2 ∈ B → p.1 ∈ A))) ∧
    (∀ km, (Serializer.mkSerializer km).keyMapping = km) := by
  refine ⟨?_, fun km => rfl⟩
  unfold Serializer.IsBijective
  simp only [Bool.and_eq_true, List.all_eq_true, List.any_eq_true, beq_iff_eq,
    Bool.or_eq_true, Bool.not_eq_true', decide_eq_true_eq, decide_eq_false_iff_not]
  constructor
  · rintro ⟨⟨h₁, h₂⟩, h₃, h₄⟩
    refine ⟨?_, ?_, ?_⟩
    · intro a ha
      obtain ⟨p, hp, hpa⟩ := h₁ a ha
      exact ⟨p.2, by rwa [show (a, p.2) = p by cases p; simp_all]⟩
    · intro b hb
      obtain ⟨p, hp, hpA, hpb⟩ := h₂ b hb
      exact ⟨p.1, hpA, by rwa [show (p.1, b) = p by cases p; simp_all]⟩
    · intro p hp hpB
      rcases h₄ p hp with hnB | hA
      · exact absurd hpB hnB
      · exact hA
  · rintro ⟨h₁, h₂, h₃⟩
    refine ⟨⟨?_, ?_⟩, ?_, ?_⟩
    · intro a ha
      obtain ⟨v, hv⟩ := h₁ a ha
      exact ⟨(a, v), hv, rfl⟩
    · intro b hb
      obtain ⟨a, haA, hab⟩ := h₂ b hb
      exact ⟨(a, b), hab, haA, rfl⟩
    · intro b hb
      obtain ⟨a, _, hab⟩ := h₂ b hb
      exact ⟨(a, b), hab, rfl⟩
    · intro p hp
      by_cases hB : p.2 ∈ B
      · exact Or.inr (h₃ p hp hB)
      · exact Or.inl hB

/-- Witness for C9: the runtime constructor returns exactly the mapping it
was handed. -/
theorem C9_witness :
    (Serializer.mkSerializer [("a", "x")]).keyMapping = [("a", "x")] :=
  (C9_bijective_check ["a"] ["x"] [("a", "x")]).2 [("a", "x")]

/-- Claim C10, counterexample: a flowControlTimeout of 0 is given yet the
internal flow controller is constructed with a timeout of 5000, because
the JavaScript or-else falls through on the falsy 0. -/
theorem C10_counterexample :
    CacheFC.flowControlTimeout (some (JSNum.num 0)) = JSNum.num 5000 ∧
    JSNum.num 5000 ≠ JSNum.num 0 := by
  exact ⟨rfl, by decide⟩

/-- Claim C10, amended: the flow-composed cache always hands its flow
controller a timeout: the given flowControlTimeout when truthy, else
5000; and a loader whose duration exceeds the timeout makes getOrSet
observe the operation-timed-out rejection, which flows through the
error-fallback policy and, with default options, rejects the call. -/
theorem C10_always_timeout {K V : Type} [DecidableEq K] (fcT : Option JSNum)
    (now₀ now₁ : Int) (st : Cache.CacheState K V) (key : K) (t duration : Int)
    (out : Except String V) (opts : GetOptions V String) :
    (fcT = none → CacheFC.flowControlTimeout fcT = JSNum.num 5000) ∧
    (∀ v, fcT = some v →
      CacheFC.flowControlTimeout fcT = (if v.truthy then v else JSNum.num 5000)) ∧
    (t < duration → (Cache.getComprehensive now₀ st key).isHit = false →
      CacheFC.getOrSetTimed now₀ now₁ st key t duration out opts =
        CacheFC.errorReturn now₁ st "Operation timed out" opts key
          (Cache.getComprehensive now₀ st key)) ∧
    (t < duration → (Cache.getComprehensive now₀ st key).isHit = false →
      CacheFC.getOrSetTimed now₀ now₁ st key t duration out {} =
        .error "Operation timed out") := by
  have hpipe : t < duration →
      FlowControl.executeWithTimeout (some t) duration out = .error "Operation timed out" := by
    intro hlt
    simp [FlowControl.executeWithTimeout, hlt]
  have hmain : t < duration → (Cache.getComprehensive now₀ st key).isHit = false →
      CacheFC.getOrSetTimed now₀ now₁ st key t duration out opts =
        CacheFC.errorReturn now₁ st "Operation timed out" opts key
          (Cache.getComprehensive now₀ st key) := by
    intro hlt hnh
    unfold CacheFC.getOrSetTimed
    rw [hpipe hlt]
    cases hget : Cache.getComprehensive now₀ st key with
    | hit v tt => rw [hget] at hnh; simp [Cache.Retrieval.isHit] at hnh
    | expired v tt => simp [CacheFC.getOrSet, hget]
    | miss => simp [CacheFC.getOrSet, hget]
  refine ⟨fun h => by rw [h]; rfl, fun v h => by rw [h]; rfl, hmain, ?_⟩
  intro hlt hnh
  have h₂ : t < duration → (Cache.getComprehensive now₀ st key).isHit = false →
      CacheFC.getOrSetTimed now₀ now₁ st key t duration out {} =
        CacheFC.errorReturn now₁ st "Operation timed out" {} key
          (Cache.getComprehensive now₀ st key) := by
    intro hlt hnh
    unfold CacheFC.getOrSetTimed
    rw [hpipe hlt]
    cases hget : Cache.getComprehensive now₀ st key with
    | hit v tt => rw [hget] at hnh; simp [Cache.Retrieval.isHit] at hnh
    | expired v tt => simp [CacheFC.getOrSet, hget]
    | miss => simp [CacheFC.getOrSet, hget]
  rw [h₂ hlt hnh]
  cases hget : Cache.getComprehensive now₀ st key <;>
    simp [CacheFC.errorReturn, GetOptions.errorFnRes, Cache.Retrieval.valueOf]

/-- Witness for C10: with the default 5000 timeout and a loader taking
6000, the call rejects with the timeout error. -/
theorem C10_witness :
    CacheFC.getOrSetTimed 0 0 sampleEmptyState 1 5000 6000 (.ok 7) {} =
      .error "Operation timed out" := by
  exact (C10_always_timeout (some (JSNum.num 5000)) 0 0 sampleEmptyState 1 5000 6000
    (.ok 7) {}).2.2.2 (by decide) (by decide)

section ProtectionLemmas

variable {K V : Type} [DecidableEq K]

theorem delete_protected_eq (st : Cache.CacheState K V) (key : K)
    (h : key ∈ st.protectedKeys) : Cache.delete st key false = st := by
  unfold Cache.delete
  rw [if_pos ⟨h, rfl⟩]

theorem delete_true_eq (st : Cache.CacheState K V) (k : K) :
    Cache.delete st k true = { st with store := mapDelete st.store k } := by
  unfold Cache.delete
  rw [if_neg]
  rintro ⟨-, h⟩
  exact Bool.noConfusion h

theorem delete_false_preserve (s : Cache.CacheState K V) (k key : K)
    (cv : Cache.LilypadCacheValue V)
    (hp : key ∈ s.protectedKeys) (hs : mapGet s.store key = some cv) :
    mapGet (Cache.delete s k false).store key = some cv ∧
    (Cache.delete s k false).protectedKeys = s.protectedKeys := by
  unfold Cache.delete
  split_ifs with hc
  · exact ⟨hs, rfl⟩
  · have hk : k ≠ key := by
      intro h
      subst h
      exact hc ⟨hp, rfl⟩
    exact ⟨by rw [mapGet_mapDelete_ne _ _ _ hk]; exact hs, rfl⟩

theorem clearFold_false_preserve (l : List K) :
    ∀ (s : Cache.CacheState K V) (key : K) (cv : Cache.LilypadCacheValue V),
      key ∈ s.protectedKeys → mapGet s.store key = some cv →
      mapGet ((l.foldl (fun s k => Cache.delete s k false) s).store) key = some cv := by
  induction l with
  | nil => exact fun s key cv _ hs => hs
  | cons k rest ih =>
    intro s key cv hp hs
    simp only [List.foldl_cons]
    obtain ⟨h₁, h₂⟩ := delete_false_preserve s k key cv hp hs
    exact ih _ key cv (by rw [h₂]; exact hp) h₁

theorem purgeFold_false_preserve (now : Int) (l : List (K × Cache.LilypadCacheValue V)) :
    ∀ (s : Cache.CacheState K V) (key : K) (cv : Cache.LilypadCacheValue V),
      key ∈ s.protectedKeys → mapGet s.store key = some cv →
      mapGet ((l.foldl
        (fun s kv => if Cache.isStale now kv.2 then Cache.delete s kv.1 false else s)
          s).store) key = some cv := by
  induction l with
  | nil => exact fun s key cv _ hs => hs
  | cons kv rest ih =>
    intro s key cv hp hs
    simp only [List.foldl_cons]
    by_cases hst : Cache.isStale now kv.2
    · rw [if_pos hst]
      obtain ⟨h₁, h₂⟩ := delete_false_preserve s kv.1 key cv hp hs
      exact ih _ key cv (by rw [h₂]; exact hp) h₁
    · rw [if_neg hst]
      exact ih _ key cv hp hs

theorem deleteTrue_none_preserve (s : Cache.CacheState K V) (k key : K)
    (h : mapGet s.store key = none) :
    mapGet (Cache.delete s k true).store key = none := by
  rw [delete_true_eq]
  exact mapGet_mapDelete_none _ _ _ h

theorem clearFold_true_none (l : List K) :
    ∀ (s : Cache.CacheState K V) (key : K), mapGet s.store key = none →
      mapGet ((l.foldl (fun s k => Cache.delete s k true) s).store) key = none := by
  induction l with
  | nil => exact fun s key h => h
  | cons k rest ih =>
    intro s key h
    simp only [List.foldl_cons]
    exact ih _ key (deleteTrue_none_preserve s k key h)

theorem clearFold_true_mem (l : List K) :
    ∀ (s : Cache.CacheState K V) (key : K), key ∈ l →
      mapGet ((l.foldl (fun s k => Cache.delete s k true) s).store) key = none := by
  induction l with
  | nil => intro s key h; simp at h
  | cons k rest ih =>
    intro s key hmem
    simp only [List.foldl_cons]
    rcases List.mem_cons.mp hmem with h | h
    · subst h
      apply clearFold_true_none
      rw [delete_true_eq]
      exact mapGet_mapDelete_self _ _
    · exact ih _ key h

theorem purgeFold_true_none (now : Int) (l : List (K × Cache.LilypadCacheValue V)) :
    ∀ (s : Cache.CacheState K V) (key : K), mapGet s.store key = none →
      mapGet ((l.foldl
        (fun s kv => if Cache.isStale now kv.2 then Cache.delete s kv.1 true else s)
          s).store) key = none := by
  induction l with
  | nil => exact fun s key h => h
  | cons kv rest ih =>
    intro s key h
    simp only [List.foldl_cons]
    by_cases hst : Cache.isStale now kv.2
    · rw [if_pos hst]
      exact ih _ key (deleteTrue_none_preserve s kv.1 key h)
    · rw [if_neg hst]
      exact ih _ key h

theorem purgeFold_true_mem (now : Int) (l : List (K × Cache.LilypadCacheValue V)) :
    ∀ (s : Cache.CacheState K V) (key : K) (cv : Cache.LilypadCacheValue V),
      (key, cv) ∈ l → Cache.isStale now cv = true →
      mapGet ((l.foldl
        (fun s kv => if Cache.isStale now kv.2 then Cache.delete s kv.1 true else s)
          s).store) key = none := by
  induction l with
  | nil => intro s key cv h; simp at h
  | cons kv rest ih =>
    intro s key cv hmem hstale
    simp only [List.foldl_cons]
    rcases List.mem_cons.mp hmem with h | h
    · subst h
      have hstep :
          (if Cache.isStale now ((key, cv) : K × Cache.LilypadCacheValue V).2
            then Cache.delete s (key, cv).1 true else s) = Cache.delete s key true := by
        simp [hstale]
      rw [hstep]
      apply purgeFold_true_none
      rw [delete_true_eq]
      exact mapGet_mapDelete_self _ _
    · exact ih _ key cv h hstale

end ProtectionLemmas

/-- Claim C7: a protected key with a stored entry survives delete, clear
and purgeExpired without force with its entry intact, while with force
the entry is removed (for purgeExpired once the entry has expired). -/
theorem C7_protected_keys {K V : Type} [DecidableEq K] (now : Int)
    (st : Cache.CacheState K V) (key : K) (cv : Cache.LilypadCacheValue V)
    (hprot : key ∈ st.protectedKeys) (hstore : mapGet st.store key = some cv) :
    mapGet (Cache.delete st key false).store key = some cv ∧
    mapGet (Cache.clear st false).store key = some cv ∧
    mapGet (Cache.purgeExpired now st false).store key = some cv ∧
    mapGet (Cache.delete st key true).store key = none ∧
    mapGet (Cache.clear st true).store key = none ∧
    (Cache.isStale now cv = true →
      mapGet (Cache.purgeExpired now st true).store key = none) := by
  refine ⟨?_, ?_, ?_, ?_, ?_, ?_⟩
  · rw [delete_protected_eq st key hprot]
    exact hstore
  · unfold Cache.clear
    exact clearFold_false_preserve _ st key cv hprot hstore
  · unfold Cache.purgeExpired
    exact purgeFold_false_preserve now _ st key cv hprot hstore
  · rw [delete_true_eq]
    exact mapGet_mapDelete_self _ _
  · unfold Cache.clear
    exact clearFold_true_mem _ st key
      (List.mem_map.mpr ⟨(key, cv), mapGet_some_mem _ _ _ hstore, rfl⟩)
  · intro hstale
    unfold Cache.purgeExpired
    exact purgeFold_true_mem now _ st key cv (mapGet_some_mem _ _ _ hstore) hstale

/-- Witness for C7: with key 1 protected and holding an expired entry,
clear without force keeps the entry and purgeExpired with force removes
it. -/
theorem C7_witness :
    mapGet (Cache.clear sampleProtectedState false).store 1 = some ⟨10, 0⟩ ∧
    mapGet (Cache.purgeExpired 5 sampleProtectedState true).store 1 = none := by
  exact ⟨(C7_protected_keys 5 sampleProtectedState 1 ⟨10, 0⟩ (by decide) rfl).2.1,
    (C7_protected_keys 5 sampleProtectedState 1 ⟨10, 0⟩ (by decide) rfl).2.2.2.2.2 (by decide)⟩

section SingleFlightLemmas

variable {K V E : Type} [DecidableEq K]

theorem getComprehensive_none (now : Int) (st : Cache.CacheState K V) (k : K)
    (h : mapGet st.store k = none) :
    Cache.getComprehensive now st k = Cache.Retrieval.miss := by
  unfold Cache.getComprehensive
  rw [h]

theorem attachedOutcome_miss (opts : GetOptions V E) (outcome : Except E V) :
    SingleFlight.attachedOutcome opts Cache.Retrieval.miss outcome = outcome := by
  cases hro : opts.returnOldOnError <;>
    simp [SingleFlight.attachedOutcome, Cache.Retrieval.valueOf, hro]

theorem starterOutcome_miss (now : Int) (cache : Cache.CacheState K V) (key : K)
    (opts : GetOptions V E) (outcome : Except E V) :
    (SingleFlight.starterOutcome now cache key opts Cache.Retrieval.miss outcome).1 =
      outcome := by
  cases outcome with
  | ok v => rfl
  | error e =>
    cases hro : opts.returnOldOnError <;>
      simp [SingleFlight.starterOutcome, Cache.Retrieval.valueOf, hro]

theorem step_arrive_start (st : SingleFlight.SFState K V E) (now : Int) (c : Nat)
    (k : K) (opts : GetOptions V E)
    (hstore : mapGet st.cache.store k = none)
    (hpend : mapGet st.pendingOps k = none) :
    SingleFlight.step st (.arrive now c k opts) =
      { st with
        pendingOps := mapSet st.pendingOps k ⟨⟨c, opts, Cache.Retrieval.miss⟩, []⟩,
        loaderCalls := mapSet st.loaderCalls k ((mapGet st.loaderCalls k).getD 0 + 1) } := by
  simp only [SingleFlight.step, getComprehensive_none now st.cache k hstore, hpend]

theorem step_arrive_attach (st : SingleFlight.SFState K V E) (now : Int) (c : Nat)
    (k : K) (opts : GetOptions V E) (op : SingleFlight.OpRecord V E)
    (hstore : mapGet st.cache.store k = none)
    (hpend : mapGet st.pendingOps k = some op) :
    SingleFlight.step st (.arrive now c k opts) =
      { st with
        pendingOps := mapSet st.pendingOps k
          ⟨op.starter, op.attached ++ [⟨c, opts, Cache.Retrieval.miss⟩]⟩ } := by
  simp only [SingleFlight.step, getComprehensive_none now st.cache k hstore, hpend]

theorem mapGet_attachFold_const (g : SingleFlight.Waiter V E → Except E V)
    (x : Except E V) :
    ∀ (l : List (SingleFlight.Waiter V E)) (r : List (Nat × Except E V)) (c : Nat),
      (∀ w ∈ l, g w = x) →
      mapGet (l.foldl (fun r w => mapSet r w.caller (g w)) r) c =
        if c ∈ l.map SingleFlight.Waiter.caller then some x else mapGet r c := by
  intro l
  induction l with
  | nil => intro r c _; simp
  | cons w rest ih =>
    intro r c hall
    simp only [List.foldl_cons]
    rw [ih _ c (fun w' hw' => hall w' (List.mem_cons_of_mem _ hw'))]
    by_cases hc : c ∈ rest.map SingleFlight.Waiter.caller
    · simp [hc]
    · by_cases hcw : w.caller = c
      · rw [if_neg hc, ← hcw, mapGet_mapSet_self]
        rw [hall w (List.mem_cons_self _ _)]
        simp [hcw]
      · rw [if_neg hc, mapGet_mapSet_ne _ _ _ _ hcw]
        have : c ∉ (w :: rest).map SingleFlight.Waiter.caller := by
          simp only [List.map_cons, List.mem_cons, not_or]
          exact ⟨fun h => hcw h.symm, hc⟩
        rw [if_neg this]

theorem arrivals_phase (k : K) :
    ∀ (l : List (Int × Nat × GetOptions V E)) (st : SingleFlight.SFState K V E)
      (op : SingleFlight.OpRecord V E),
      mapGet st.cache.store k = none →
      mapGet st.pendingOps k = some op →
      (∀ w ∈ op.attached, w.fetched = Cache.Retrieval.miss) →
      mapGet st.loaderCalls k = some 1 →
      ∃ op₂ : SingleFlight.OpRecord V E,
        (SingleFlight.run st
          (l.map (fun a => SingleFlight.Event.arrive a.1 a.2.1 k a.2.2))).cache = st.cache ∧
        mapGet (SingleFlight.run st
          (l.map (fun a => SingleFlight.Event.arrive a.1 a.2.1 k a.2.2))).pendingOps k =
            some op₂ ∧
        op₂.starter = op.starter ∧
        (∀ w ∈ op.attached, w ∈ op₂.attached) ∧
        (∀ w ∈ op₂.attached, w.fetched = Cache.Retrieval.miss) ∧
        mapGet (SingleFlight.run st
          (l.map (fun a => SingleFlight.Event.arrive a.1 a.2.1 k a.2.2))).loaderCalls k =
            some 1 ∧
        (∀ a ∈ l,
          (⟨a.2.1, a.2.2, Cache.Retrieval.miss⟩ : SingleFlight.Waiter V E) ∈
            op₂.attached) := by
  intro l
  induction l with
  | nil =>
    intro st op hstore hpend hmiss hcalls
    exact ⟨op, rfl, hpend, rfl, fun w hw => hw, hmiss, hcalls, by simp⟩
  | cons a rest ih =>
    intro st op hstore hpend hmiss hcalls
    simp only [List.map_cons, SingleFlight.run, List.foldl_cons]
    rw [step_arrive_attach st a.1 a.2.1 k a.2.2 op hstore hpend]
    have hmiss₁ : ∀ w ∈ op.attached ++ [(⟨a.2.1, a.2.2, Cache.Retrieval.miss⟩ :
        SingleFlight.Waiter V E)], w.fetched = Cache.Retrieval.miss := by
      intro w hw
      rcases List.mem_append.mp hw with h | h
      · exact hmiss w h
      · rw [List.mem_singleton.mp h]
    obtain ⟨op₂, hc₂, hp₂, hs₂, hsub₂, hm₂, hl₂, ha₂⟩ :=
      ih ({ st with pendingOps := mapSet st.pendingOps k ⟨op.starter, op.attached ++ [⟨a.2.1, a.2.2, Cache.Retrieval.miss⟩]⟩ })
        ⟨op.starter, op.attached ++ [⟨a.2.1, a.2.2, Cache.Retrieval.miss⟩]⟩
        hstore (mapGet_mapSet_self _ _ _) hmiss₁ hcalls
    refine ⟨op₂, hc₂, hp₂, hs₂, ?_, hm₂, hl₂, ?_⟩
    · intro w hw
      exact hsub₂ w (List.mem_append_left _ hw)
    · intro a' ha'
      rcases List.mem_cons.mp ha' with h | h
      · subst h
        exact hsub₂ _ (List.mem_append_right _ (List.mem_singleton.mpr rfl))
      · exact ha₂ a' h

end SingleFlightLemmas

/-- Claim C2: starting from a state with no cached value, no pending
operation and no recorded loader call for the key, any nonempty batch of
concurrent getOrSet arrivals for that key followed by the settlement of
the in-flight promise invokes the loader exactly once, resolves every
caller to the settled outcome (success or failure alike), and leaves no
pending operation for the key. -/
theorem C2_single_flight {K V E : Type} [DecidableEq K]
    (st₀ : SingleFlight.SFState K V E) (k : K)
    (arrivals : List (Int × Nat × GetOptions V E)) (now : Int) (outcome : Except E V)
    (hstore : mapGet st₀.cache.store k = none)
    (hpend : mapGet st₀.pendingOps k = none)
    (hcalls : mapGet st₀.loaderCalls k = none)
    (hne : arrivals ≠ []) :
    mapGet (SingleFlight.run st₀
      (arrivals.map (fun a => SingleFlight.Event.arrive a.1 a.2.1 k a.2.2) ++
        [SingleFlight.Event.settle now k outcome])).loaderCalls k = some 1 ∧
    (∀ a ∈ arrivals,
      mapGet (SingleFlight.run st₀
        (arrivals.map (fun a => SingleFlight.Event.arrive a.1 a.2.1 k a.2.2) ++
          [SingleFlight.Event.settle now k outcome])).results a.2.1 = some outcome) ∧
    mapGet (SingleFlight.run st₀
      (arrivals.map (fun a => SingleFlight.Event.arrive a.1 a.2.1 k a.2.2) ++
        [SingleFlight.Event.settle now k outcome])).pendingOps k = none := by
  rcases arrivals with _ | ⟨a₀, rest⟩
  · exact absurd rfl hne
  simp only [List.map_cons, List.cons_append, SingleFlight.run, List.foldl_cons,
    List.foldl_append, List.foldl_nil]
  rw [step_arrive_start st₀ a₀.1 a₀.2.1 k a₀.2.2 hstore hpend]
  set st₁ : SingleFlight.SFState K V E :=
    { st₀ with
      pendingOps := mapSet st₀.pendingOps k ⟨⟨a₀.2.1, a₀.2.2, Cache.Retrieval.miss⟩, []⟩,
      loaderCalls := mapSet st₀.loaderCalls k
        ((mapGet st₀.loaderCalls k).getD 0 + 1) } with hst₁
  have hstore₁ : mapGet st₁.cache.store k = none := hstore
  have hpend₁ : mapGet st₁.pendingOps k =
      some ⟨⟨a₀.2.1, a₀.2.2, Cache.Retrieval.miss⟩, []⟩ := mapGet_mapSet_self _ _ _
  have hcalls₁ : mapGet st₁.loaderCalls k = some 1 := by
    rw [hst₁]
    simp only [hcalls]
    exact mapGet_mapSet_self _ _ _
  obtain ⟨op₂, hc₂, hp₂, hs₂, -, hm₂, hl₂, ha₂⟩ :=
    arrivals_phase k rest st₁ ⟨⟨a₀.2.1, a₀.2.2, Cache.Retrieval.miss⟩, []⟩
      hstore₁ hpend₁ (by intro w hw; simp at hw) hcalls₁
  simp only [SingleFlight.run] at hc₂ hp₂ hl₂
  set stP : SingleFlight.SFState K V E :=
    List.foldl SingleFlight.step st₁
      (rest.map (fun a => SingleFlight.Event.arrive a.1 a.2.1 k a.2.2)) with hstP
  simp only [SingleFlight.step, hp₂]
  have hstarter : op₂.starter =
      (⟨a₀.2.1, a₀.2.2, Cache.Retrieval.miss⟩ : SingleFlight.Waiter V E) := hs₂
  have hsr : (SingleFlight.starterOutcome now stP.cache k
      op₂.starter.opts op₂.starter.fetched outcome).1 = outcome := by
    rw [hstarter]
    exact starterOutcome_miss _ _ _ _ _
  have hg : ∀ w ∈ op₂.attached,
      SingleFlight.attachedOutcome w.opts w.fetched outcome = outcome := by
    intro w hw
    rw [hm₂ w hw]
    exact attachedOutcome_miss _ _
  refine ⟨hl₂, ?_, mapGet_mapDelete_self _ _⟩
  intro a ha
  rw [mapGet_attachFold_const
    (fun w => SingleFlight.attachedOutcome w.opts w.fetched outcome) outcome
    op₂.attached _ a.2.1 hg]
  rcases List.mem_cons.mp ha with h | h
  · subst h
    by_cases hmem : a.2.1 ∈ op₂.attached.map SingleFlight.Waiter.caller
    · rw [if_pos hmem]
    · rw [if_neg hmem]
      have hcaller : op₂.starter.caller = a.2.1 := by rw [hstarter]
      rw [← hcaller, mapGet_mapSet_self, hsr]
  · have hw : (⟨a.2.1, a.2.2, Cache.Retrieval.miss⟩ : SingleFlight.Waiter V E) ∈
        op₂.attached := ha₂ a h
    have hmem : a.2.1 ∈ op₂.attached.map SingleFlight.Waiter.caller :=
      List.mem_map.mpr ⟨_, hw, rfl⟩
    rw [if_pos hmem]

/-- Witness for C2: two concurrent callers on an empty cache share one
loader invocation and both resolve to its result. -/
theorem C2_witness :
    mapGet (SingleFlight.run sampleSFEmpty
      ([(0, 1, ({} : GetOptions Nat String)), (0, 2, ({} : GetOptions Nat String))].map
          (fun a => SingleFlight.Event.arrive a.1 a.2.1 1 a.2.2) ++
        [SingleFlight.Event.settle 5 1 (.ok 7)])).results 2 = some (.ok 7) ∧
    mapGet (SingleFlight.run sampleSFEmpty
      ([(0, 1, ({} : GetOptions Nat String)), (0, 2, ({} : GetOptions Nat String))].map
          (fun a => SingleFlight.Event.arrive a.1 a.2.1 1 a.2.2) ++
        [SingleFlight.Event.settle 5 1 (.ok 7)])).loaderCalls 1 = some 1 := by
  have h := C2_single_flight sampleSFEmpty 1 [(0, 1, {}), (0, 2, {})] 5 (.ok 7)
    rfl rfl rfl (by simp)
  exact ⟨h.2.1 (0, 2, {}) (List.mem_cons_of_mem _ (List.mem_cons_self _ _)), h.1⟩

end LilypadLibs
